import Mathlib

/-!
Verification of the StyleSense web server (`src/app.py`) against its
natural-language specification.

`app.py` defines a Flask application with two route handlers:

* `index` (lines 6–37): serves `GET /`.  It reads the `API_KEY` environment
  variable (defaulting to the empty string), reads the file `index.html`
  (returning `("index.html not found", 404)` if it is absent), builds an
  injection snippet (an f-string, lines 21–29), inserts that snippet after
  the occurrences of `<head>` via `str.replace` (or prepends it when the
  document has no `<head>`, lines 32–35), and finally returns
  `render_template_string(html_content)` (line 37).

* `static_files` (lines 39–42): serves `GET /<path>` via
  `send_from_directory('.', path)`.

The embedding below models documents and paths as `List Char` (Lean 4.14's
`String` is a structure wrapping a `List Char`, so the two views convert by
`String.data` / `String.mk`).  The filesystem and the process environment are
modelled as functions supplied to the handlers per request, matching the fact
that the source rereads both on every request and never writes either.

One caveat is recorded where it matters: line 37 of `app.py` pipes the
injected document through `flask.render_template_string`, which renders it as
a Jinja2 template.  The definitions below model the handler up to and
including the string insertion of lines 32–35; the divergence introduced by
the Jinja2 rendering step (documents containing template syntax are
transformed, and a trailing newline is stripped) is discussed at the theorem
for the corresponding claim.
-/

/-- An HTTP response: a body and a status code.  Flask turns a plain string
return value into a 200 response and a `(body, code)` tuple into a response
with that code. -/
structure Response where
  body : String
  status : Nat
deriving DecidableEq

/-- The marker searched for by `app.py` line 32 (`'<head>' in html_content`)
and replaced at line 33. -/
def headTag : List Char := "<head>".data

/-- Fuel-indexed scanner behind `replaceAll`; the fuel only makes the
recursion structural and is irrelevant as long as it bounds the input length
(`replaceAllAux_congr` below). -/
def replaceAllAux (pat rep : List Char) : Nat → List Char → List Char
  | 0, s => s
  | _ + 1, [] => []
  | fuel + 1, c :: rest =>
    if pat.isPrefixOf (c :: rest) then
      rep ++ replaceAllAux pat rep fuel (rest.drop (pat.length - 1))
    else
      c :: replaceAllAux pat rep fuel rest

/-- Python's `str.replace(pat, rep)` for a nonempty pattern: scan left to
right; at each position where `pat` occurs, emit `rep` and resume scanning
after the matched occurrence (the replacement itself is not rescanned);
all non-overlapping occurrences are replaced.  Embeds the call
`html_content.replace('<head>', ...)` at `app.py` line 33. -/
def replaceAll (pat rep s : List Char) : List Char :=
  replaceAllAux pat rep s.length s

/-- Constant prefix of the injection snippet built by the f-string at
`app.py` lines 21–29: everything before the interpolated `{api_key}`.
The doubled braces of the f-string denote literal brace characters. -/
def snipPre : String :=
  "\n    <script>\n        window.process = \x7b\n            env: \x7b\n                API_KEY: \""

/-- Constant suffix of the injection snippet built by the f-string at
`app.py` lines 21–29: everything after the interpolated `{api_key}`. -/
def snipPost : String :=
  "\"\n            \x7d\n        \x7d;\n    </script>\n    "

/-- The injection snippet (`injection_script`, `app.py` lines 21–29): the
f-string interpolates `api_key` verbatim between the two constant parts. -/
def injection_script (api_key : String) : String :=
  snipPre ++ api_key ++ snipPost

/-- Lines 32–35 of `app.py`: if `'<head>'` occurs in the document, replace
every occurrence of `'<head>'` by `'<head>' + snippet` (Python `str.replace`
replaces all occurrences); otherwise prepend the snippet. -/
def injectSnippet (document snippet : List Char) : List Char :=
  if headTag <:+: document then
    replaceAll headTag (headTag ++ snippet) document
  else
    snippet ++ document

/-- The per-request inputs of the server: the process environment (reread by
`os.environ.get` on every request) and the filesystem, keyed by normalized
relative path components with respect to the serving root (the application's
working directory).  Keys whose first component is `".."` address files
outside the serving root.  Neither handler in `app.py` performs any write, so
the state is read-only for the handlers. -/
structure ServerState where
  env : String → Option String
  fs : List (List Char) → Option String

/-- The path of the root document read at `app.py` line 14
(`open('index.html', 'r')`). -/
def indexHtmlPath : List (List Char) := ["index.html".data]

/-- The `index` handler, `app.py` lines 6–35: read `API_KEY` with default
`''` (line 10), read `index.html` returning `("index.html not found", 404)`
when absent (lines 13–17), build the snippet and insert it (lines 21–35).
Line 37 additionally passes the 200 body through
`flask.render_template_string`; that Jinja2 rendering step is NOT part of
this definition — its effect on documents containing template syntax is
recorded separately as a divergence from the specification. -/
def index (st : ServerState) : Response :=
  let api_key := (st.env "API_KEY").getD ""
  match st.fs indexHtmlPath with
  | none => ⟨"index.html not found", 404⟩
  | some html =>
    ⟨String.mk (injectSnippet html.data (injection_script api_key).data), 200⟩

/-- Split a character list on `'/'` (the scanning part of
`posixpath.normpath`'s `path.split(sep)`). -/
def splitAux : List Char → List Char → List (List Char)
  | [], cur => [cur.reverse]
  | c :: rest, cur =>
    if c = '/' then cur.reverse :: splitAux rest []
    else splitAux rest (c :: cur)

/-- `path.split('/')` as used by `posixpath.normpath`. -/
def splitOnSlash (s : List Char) : List (List Char) :=
  splitAux s []

/-- The component `".."`. -/
def dotdot : List Char := "..".data

/-- Component normalization of `posixpath.normpath` for relative paths:
drop empty and `"."` components; `".."` cancels the previous component
unless there is none or it is itself `".."`, in which case it is kept. -/
def normComps (comps : List (List Char)) : List (List Char) :=
  comps.foldl (fun acc comp =>
    if comp = [] ∨ comp = ['.'] then acc
    else if comp = dotdot then
      if acc = [] ∨ acc.getLast? = some dotdot then acc ++ [dotdot]
      else acc.dropLast
    else acc ++ [comp]) []

/-- The `static_files` handler, `app.py` lines 39–42:
`send_from_directory('.', path)`.  Its safety logic is
`werkzeug.utils.safe_join('.', path)`, which normalizes `path` with
`posixpath.normpath` and refuses (HTTP 404 via `NotFound`) when the path is
absolute or the normalized path is `".."` or starts with `"../"` — that is,
when its first normalized component is `".."`.  Otherwise the file at the
resolved location is served with its bytes (200), and a missing file is a
404.  The 404 body is abbreviated here to `"Not Found"`; no claim concerns
the static 404 body. -/
def static_files (fs : List (List Char) → Option String) (path : List Char) :
    Response :=
  if path.head? = some '/' then ⟨"Not Found", 404⟩
  else
    let comps := normComps (splitOnSlash path)
    if comps.head? = some dotdot then ⟨"Not Found", 404⟩
    else
      match fs comps with
      | some content => ⟨content, 200⟩
      | none => ⟨"Not Found", 404⟩

/-- A request handled by the router of `app.py`: `GET /` or `GET /<path>`. -/
inductive Request where
  | root : Request
  | staticPath : List Char → Request

/-- Handle one request.  Both handlers of `app.py` only read: `index` opens
`index.html` in mode `'r'` (line 14) and `static_files` delegates to
`send_from_directory` (line 42), which reads the resolved file; neither
performs any write, so the server state is returned unchanged. -/
def handle (st : ServerState) : Request → Response × ServerState
  | .root => (index st, st)
  | .staticPath p => (static_files st.fs p, st)

/-- The state after handling a sequence of requests. -/
def handleAll (st : ServerState) (reqs : List Request) : ServerState :=
  reqs.foldl (fun s r => (handle s r).2) st

/-! ### Lemmas about `replaceAll` (Python `str.replace`) -/

/-- `replaceAllAux` on the empty input is empty for any fuel. -/
theorem replaceAllAux_nil (pat rep : List Char) (fuel : Nat) :
    replaceAllAux pat rep fuel [] = [] := by
  cases fuel <;> rfl

/-- The fuel of `replaceAllAux` is irrelevant as long as it bounds the
length of the input. -/
theorem replaceAllAux_congr (pat rep : List Char) :
    ∀ f₁ f₂ s, s.length ≤ f₁ → s.length ≤ f₂ →
      replaceAllAux pat rep f₁ s = replaceAllAux pat rep f₂ s := by
  intro f₁
  induction f₁ with
  | zero =>
    intro f₂ s h₁ _
    have hs : s = [] := List.eq_nil_of_length_eq_zero (Nat.le_zero.mp h₁)
    subst hs
    rw [replaceAllAux_nil, replaceAllAux_nil]
  | succ g ih =>
    intro f₂ s h₁ h₂
    cases s with
    | nil => rw [replaceAllAux_nil, replaceAllAux_nil]
    | cons c rest =>
      cases f₂ with
      | zero => simp at h₂
      | succ g₂ =>
        simp only [List.length_cons, Nat.succ_le_succ_iff] at h₁ h₂
        simp only [replaceAllAux]
        by_cases hp : pat.isPrefixOf (c :: rest)
        · simp only [hp, if_true]
          have hd : (rest.drop (pat.length - 1)).length ≤ rest.length := by
            simp only [List.length_drop]
            omega
          rw [ih g₂ _ (by omega) (by omega)]
        · simp only [hp, if_false, Bool.false_eq_true]
          rw [ih g₂ rest h₁ h₂]

/-- Unfolding equation of `replaceAll` on a nonempty input. -/
theorem replaceAll_cons (pat rep : List Char) (c : Char) (rest : List Char) :
    replaceAll pat rep (c :: rest) =
      if pat.isPrefixOf (c :: rest) then
        rep ++ replaceAll pat rep (rest.drop (pat.length - 1))
      else
        c :: replaceAll pat rep rest := by
  unfold replaceAll
  simp only [List.length_cons, replaceAllAux]
  by_cases hp : pat.isPrefixOf (c :: rest)
  · simp only [hp, if_true]
    have hd : (rest.drop (pat.length - 1)).length ≤ rest.length := by
      simp only [List.length_drop]
      omega
    rw [replaceAllAux_congr pat rep rest.length _ _ hd (Nat.le_refl _)]
  · simp only [hp, if_false, Bool.false_eq_true]

/-- `str.replace` leaves a string without an occurrence of the pattern
unchanged. -/
theorem replaceAll_of_not_infix (pat rep : List Char) :
    ∀ s, ¬ pat <:+: s → replaceAll pat rep s = s := by
  intro s
  induction s with
  | nil => intro _; rfl
  | cons c rest ih =>
    intro h
    rw [replaceAll_cons]
    have hp : ¬ pat.isPrefixOf (c :: rest) = true := by
      intro hp
      exact h (List.isPrefixOf_iff_prefix.mp hp).isInfix
    simp only [hp, if_false, Bool.false_eq_true]
    rw [ih (fun hi => h (List.infix_cons hi))]

/-- `str.replace` at the first occurrence: a string containing the (nonempty)
pattern splits as `p ++ pat ++ t` with `p` before the leftmost occurrence,
and the replacement emits `p`, then `rep`, then continues to scan `t`. -/
theorem replaceAll_first (pat rep : List Char) (hpat : pat ≠ []) :
    ∀ s : List Char, pat <:+: s →
      ∃ p t, s = p ++ pat ++ t ∧
        (∀ p' t', s = p' ++ pat ++ t' → p.length ≤ p'.length) ∧
        replaceAll pat rep s = p ++ rep ++ replaceAll pat rep t := by
  intro s
  induction s with
  | nil =>
    intro h
    exact absurd (List.infix_nil.mp h) hpat
  | cons c rest ih =>
    intro h
    by_cases hp : pat.isPrefixOf (c :: rest)
    · have hpre : pat <+: c :: rest := List.isPrefixOf_iff_prefix.mp hp
      obtain ⟨t, ht⟩ := hpre
      refine ⟨[], t, by simpa using ht.symm, fun _ _ _ => Nat.zero_le _, ?_⟩
      rw [replaceAll_cons]
      simp only [hp, if_true, List.nil_append]
      obtain ⟨d, pat', hpat'⟩ : ∃ d pat', pat = d :: pat' := by
        cases pat with
        | nil => exact absurd rfl hpat
        | cons d pat' => exact ⟨d, pat', rfl⟩
      subst hpat'
      have hrest : rest = pat' ++ t := by
        have h5 := ht
        simp only [List.cons_append, List.cons.injEq] at h5
        exact h5.2.symm
      rw [hrest]
      simp only [List.length_cons, Nat.add_sub_cancel, List.drop_left]
    · obtain ⟨l, r, hlr⟩ := h
      cases l with
      | nil =>
        exfalso
        apply hp
        apply List.isPrefixOf_iff_prefix.mpr
        exact ⟨r, by simpa using hlr⟩
      | cons x l' =>
        have hx : x = c ∧ l' ++ pat ++ r = rest := by
          simpa using hlr
        have hinf : pat <:+: rest := ⟨l', r, hx.2⟩
        obtain ⟨p, t, hdec, hmin, heq⟩ := ih hinf
        refine ⟨c :: p, t, by simpa using hdec, ?_, ?_⟩
        · intro p' t' hsplit
          cases p' with
          | nil =>
            exfalso
            apply hp
            apply List.isPrefixOf_iff_prefix.mpr
            exact ⟨t', by simpa using hsplit.symm⟩
          | cons y p'' =>
            have hy : c = y ∧ rest = p'' ++ pat ++ t' := by
              have h6 := hsplit
              simp only [List.cons_append, List.cons.injEq] at h6
              exact h6
            have := hmin p'' t' hy.2
            simpa using Nat.succ_le_succ this
        · rw [replaceAll_cons]
          simp only [hp, if_false, Bool.false_eq_true]
          rw [heq]
          simp

/-! ### The injector (claims about `app.py` lines 32–35) -/

/-- C3: for every document with no occurrence of the head-opening tag, the
injector prepends the snippet verbatim: output = snippet ++ document. -/
theorem injectSnippet_no_head (document snippet : List Char)
    (h : ¬ headTag <:+: document) :
    injectSnippet document snippet = snippet ++ document := by
  unfold injectSnippet
  rw [if_neg h]

/-- Witness for `injectSnippet_no_head` at the concrete document
`<html><body>Hi</body></html>` and the snippet for key `abcd1234`. -/
theorem injectSnippet_no_head_witness :
    ¬ headTag <:+: "<html><body>Hi</body></html>".data ∧
    injectSnippet "<html><body>Hi</body></html>".data
        (injection_script "abcd1234").data =
      (injection_script "abcd1234").data ++
        "<html><body>Hi</body></html>".data :=
  ⟨by decide,
   injectSnippet_no_head "<html><body>Hi</body></html>".data
     (injection_script "abcd1234").data (by decide)⟩

/-- C2 counterexample: for the document `<head><head>` (which contains a
head-opening tag) and the snippet for the unset key, the output does NOT
consist of the original document with the snippet inserted once after the
first `<head>` — `str.replace` also inserts it after the second occurrence. -/
theorem injectSnippet_first_only_false :
    ¬ ∃ p t : List Char,
        "<head><head>".data = p ++ headTag ++ t ∧
        (∀ p' t', "<head><head>".data = p' ++ headTag ++ t' →
          p.length ≤ p'.length) ∧
        injectSnippet "<head><head>".data (injection_script "").data =
          p ++ headTag ++ (injection_script "").data ++ t := by
  rintro ⟨p, t, hdec, hmin, hout⟩
  have hp0 : p.length ≤ 0 :=
    hmin [] "<head>".data (by decide)
  have hp : p = [] := List.eq_nil_of_length_eq_zero (Nat.le_zero.mp hp0)
  subst hp
  have ht : t = "<head>".data := by
    have h2 : headTag ++ t = headTag ++ "<head>".data := by
      have h3 : "<head><head>".data = headTag ++ "<head>".data := by decide
      simpa using (hdec.symm.trans h3)
    simpa using h2
  subst ht
  exact absurd hout (by decide)

/-- C2 amended: for every document containing a head-opening tag, the output
is the prefix before the first `<head>`, then `<head>`, then the snippet,
then the scan of the remainder in which every further non-overlapping
occurrence of `<head>` likewise receives the snippet (Python `str.replace`
replaces all occurrences); when the first occurrence is the only one, the
remainder is byte-identical to the original. -/
theorem injectSnippet_head (document snippet : List Char)
    (h : headTag <:+: document) :
    ∃ p t, document = p ++ headTag ++ t ∧
      (∀ p' t', document = p' ++ headTag ++ t' → p.length ≤ p'.length) ∧
      injectSnippet document snippet =
        p ++ headTag ++ snippet ++
          replaceAll headTag (headTag ++ snippet) t ∧
      (¬ headTag <:+: t →
        injectSnippet document snippet = p ++ headTag ++ snippet ++ t) := by
  obtain ⟨p, t, hdec, hmin, heq⟩ :=
    replaceAll_first headTag (headTag ++ snippet) (by decide) document h
  have hout : injectSnippet document snippet =
      p ++ headTag ++ snippet ++ replaceAll headTag (headTag ++ snippet) t := by
    unfold injectSnippet
    rw [if_pos h, heq]
    simp [List.append_assoc]
  refine ⟨p, t, hdec, hmin, hout, ?_⟩
  intro hnt
  rw [hout, replaceAll_of_not_infix _ _ t hnt]

/-- Witness for `injectSnippet_head` at the specification scenario document
`<html><head></head><body>Hi</body></html>` with the snippet for key
`abcd1234`. -/
theorem injectSnippet_head_witness :
    headTag <:+: "<html><head></head><body>Hi</body></html>".data ∧
    ∃ p t,
      "<html><head></head><body>Hi</body></html>".data =
        p ++ headTag ++ t ∧
      (∀ p' t', "<html><head></head><body>Hi</body></html>".data =
        p' ++ headTag ++ t' → p.length ≤ p'.length) ∧
      injectSnippet "<html><head></head><body>Hi</body></html>".data
          (injection_script "abcd1234").data =
        p ++ headTag ++ (injection_script "abcd1234").data ++
          replaceAll headTag (headTag ++ (injection_script "abcd1234").data)
            t ∧
      (¬ headTag <:+: t →
        injectSnippet "<html><head></head><body>Hi</body></html>".data
            (injection_script "abcd1234").data =
          p ++ headTag ++ (injection_script "abcd1234").data ++ t) :=
  ⟨by decide,
   injectSnippet_head "<html><head></head><body>Hi</body></html>".data
     (injection_script "abcd1234").data (by decide)⟩

/-! ### The `index` handler (claims about `app.py` lines 6–35) -/

/-- An environment in which only `API_KEY` is set, to the given value
(witness fixture). -/
def envWith (k : String) : String → Option String :=
  fun name => if name = "API_KEY" then some k else none

/-- The empty environment (witness fixture). -/
def envEmpty : String → Option String := fun _ => none

/-- The root document of the specification's scenario (witness fixture). -/
def rootDoc : String := "<html><head></head><body>Hi</body></html>"

/-- A filesystem holding only `index.html` with content `rootDoc`
(witness fixture). -/
def fsRootOnly : List (List Char) → Option String :=
  fun p => if p = indexHtmlPath then some rootDoc else none

/-- The empty filesystem (witness fixture). -/
def fsEmpty : List (List Char) → Option String := fun _ => none

/-- C4: for every request-time state whose filesystem holds `index.html`,
the handler succeeds and its body is the document with the snippet
inserted, where the value embedded between the snippet's constant prefix
and suffix is exactly the request-time value of the `API_KEY` environment
variable (the empty string when unset).  The environment is an input of
each call — `os.environ.get` runs on every request, nothing is cached. -/
theorem index_secret_per_request (st : ServerState) (html : String)
    (hfs : st.fs indexHtmlPath = some html) :
    (index st).status = 200 ∧
    (index st).body =
      String.mk (injectSnippet html.data
        (snipPre.data ++ ((st.env "API_KEY").getD "").data ++
          snipPost.data)) := by
  unfold index
  rw [hfs]
  refine ⟨rfl, ?_⟩
  simp [injection_script, String.data_append]

/-- Witness for `index_secret_per_request` with `API_KEY=abcd1234` and the
scenario root document. -/
theorem index_secret_witness :
    (index ⟨envWith "abcd1234", fsRootOnly⟩).status = 200 ∧
    (index ⟨envWith "abcd1234", fsRootOnly⟩).body =
      String.mk (injectSnippet rootDoc.data
        (snipPre.data ++ (((envWith "abcd1234") "API_KEY").getD "").data ++
          snipPost.data)) :=
  index_secret_per_request ⟨envWith "abcd1234", fsRootOnly⟩ rootDoc rfl

/-- C5: a missing secret never fails the request — with `API_KEY` unset and
`index.html` present, the handler returns 200 and embeds the empty
string. -/
theorem index_missing_secret (st : ServerState) (html : String)
    (henv : st.env "API_KEY" = none)
    (hfs : st.fs indexHtmlPath = some html) :
    (index st).status = 200 ∧
    (index st).body =
      String.mk (injectSnippet html.data (injection_script "").data) := by
  unfold index
  rw [hfs, henv]
  exact ⟨rfl, rfl⟩

/-- Witness for `index_missing_secret` with the empty environment. -/
theorem index_missing_secret_witness :
    (index ⟨envEmpty, fsRootOnly⟩).status = 200 ∧
    (index ⟨envEmpty, fsRootOnly⟩).body =
      String.mk (injectSnippet rootDoc.data (injection_script "").data) :=
  index_missing_secret ⟨envEmpty, fsRootOnly⟩ rootDoc rfl rfl

/-- C6: `GET /` produces status 404 exactly when `index.html` is absent,
and in that case the response is the plain text `index.html not found`
with status 404; the handler returns normally (request-local failure). -/
theorem index_not_found_iff (st : ServerState) :
    ((index st).status = 404 ↔ st.fs indexHtmlPath = none) ∧
    (st.fs indexHtmlPath = none →
      index st = ⟨"index.html not found", 404⟩) := by
  cases h : st.fs indexHtmlPath with
  | none => simp [index, h]
  | some html => simp [index, h]

/-- Witness for `index_not_found_iff` on the empty filesystem. -/
theorem index_not_found_witness :
    index ⟨envEmpty, fsEmpty⟩ = ⟨"index.html not found", 404⟩ :=
  (index_not_found_iff ⟨envEmpty, fsEmpty⟩).2 rfl

/-! ### The `static_files` handler (claims about `app.py` lines 39–42) -/

/-- C7: a relative, non-escaping path that resolves to an existing file
under the serving root is served with status 200 and the file's exact
content. -/
theorem static_files_found (fs : List (List Char) → Option String)
    (path : List Char) (content : String)
    (habs : ¬ path.head? = some '/')
    (hesc : ¬ (normComps (splitOnSlash path)).head? = some dotdot)
    (hfile : fs (normComps (splitOnSlash path)) = some content) :
    static_files fs path = ⟨content, 200⟩ := by
  simp only [static_files]
  rw [if_neg habs, if_neg hesc, hfile]

/-- A filesystem holding only the static asset `index.js`
(witness fixture). -/
def fsStatic : List (List Char) → Option String :=
  fun p => if p = ["index.js".data] then some "console.log(1);" else none

/-- Witness for `static_files_found` at the path `index.js`. -/
theorem static_files_found_witness :
    static_files fsStatic "index.js".data = ⟨"console.log(1);", 200⟩ :=
  static_files_found fsStatic "index.js".data "console.log(1);"
    (by decide) (by decide) (by decide)

/-- C8: any path that is absolute, normalizes to escape the serving root,
or does not resolve to an existing file, is answered with 404; and every
200 response's body is the content of a file whose normalized path stays
under the serving root (no leading `..` component) — bytes of files outside
the root are never returned. -/
theorem static_files_no_traversal (fs : List (List Char) → Option String)
    (path : List Char) :
    ((path.head? = some '/' ∨
      (normComps (splitOnSlash path)).head? = some dotdot ∨
      fs (normComps (splitOnSlash path)) = none) →
      (static_files fs path).status = 404) ∧
    ((static_files fs path).status = 200 →
      ¬ path.head? = some '/' ∧
      ¬ (normComps (splitOnSlash path)).head? = some dotdot ∧
      fs (normComps (splitOnSlash path)) =
        some (static_files fs path).body) := by
  by_cases habs : path.head? = some '/'
  · simp [static_files, habs]
  · by_cases hesc : (normComps (splitOnSlash path)).head? = some dotdot
    · simp [static_files, habs, hesc]
    · cases hfile : fs (normComps (splitOnSlash path)) with
      | none => simp [static_files, habs, hesc, hfile]
      | some content => simp [static_files, habs, hesc, hfile]

/-- A filesystem in which a file exists outside the serving root, at
`../../etc/passwd` relative to the root (witness fixture). -/
def fsOutside : List (List Char) → Option String :=
  fun p =>
    if p = [dotdot, dotdot, "etc".data, "passwd".data] then
      some "root:x:0:0:root"
    else none

/-- Witness for `static_files_no_traversal`: the traversal request
`../../etc/passwd` is answered 404 even though the target file exists
outside the root. -/
theorem static_files_no_traversal_witness :
    (static_files fsOutside "../../etc/passwd".data).status = 404 :=
  (static_files_no_traversal fsOutside "../../etc/passwd".data).1
    (Or.inr (Or.inl (by decide)))

/-! ### Frame property of request handling -/

/-- Handling a single request leaves the server state unchanged: both
handlers only read. -/
theorem handle_snd (st : ServerState) (r : Request) : (handle st r).2 = st := by
  cases r <;> rfl

/-- C9: after any sequence of requests, the filesystem (in particular the
on-disk `index.html`) and the environment are unchanged — injection only
builds a derived in-memory copy inside the response. -/
theorem handleAll_preserves_state (st : ServerState) (reqs : List Request) :
    handleAll st reqs = st ∧
    ∀ p, (handleAll st reqs).fs p = st.fs p := by
  have key : ∀ (l : List Request) (s : ServerState), handleAll s l = s := by
    intro l
    induction l with
    | nil => intro s; rfl
    | cons r rs ih =>
      intro s
      have hstep : handleAll s (r :: rs) = handleAll (handle s r).2 rs := rfl
      rw [hstep, handle_snd, ih]
  exact ⟨key reqs st, fun p => by rw [key reqs st]⟩

/-! ### Verbatim interpolation of the secret (claim about lines 21–29) -/

/-- C10: the f-string interpolates the secret verbatim between the constant
prefix (which ends with the opening double quote) and the constant suffix
(which starts with the closing double quote); no escaping is applied, so
when the secret itself contains a double quote, the JavaScript string
literal — the characters up to the first quote after the opening one — is
not the whole secret: the literal is terminated early. -/
theorem injection_script_verbatim (api_key : String) :
    (injection_script api_key).data =
      snipPre.data ++ api_key.data ++ snipPost.data ∧
    snipPre.data.getLast? = some '"' ∧
    snipPost.data.head? = some '"' ∧
    ('"' ∈ api_key.data →
      (api_key.data ++ snipPost.data).takeWhile (fun c => c != '"') ≠
        api_key.data) := by
  refine ⟨by simp [injection_script, String.data_append], by decide, rfl, ?_⟩
  intro hq hcontra
  have hmem : '"' ∈ (api_key.data ++ snipPost.data).takeWhile
      (fun c => c != '"') := by
    rw [hcontra]
    exact hq
  have := List.mem_takeWhile_imp hmem
  simp at this

/-- Witness for `injection_script_verbatim` at the secret `ab"cd`, which
contains a double quote. -/
theorem injection_script_verbatim_witness :
    (injection_script "ab\"cd").data =
      snipPre.data ++ "ab\"cd".data ++ snipPost.data ∧
    ("ab\"cd".data ++ snipPost.data).takeWhile (fun c => c != '"') ≠
      "ab\"cd".data :=
  ⟨(injection_script_verbatim "ab\"cd").1,
   (injection_script_verbatim "ab\"cd").2.2.2 (by decide)⟩

-- sanity checks (concrete evaluations of the embedding)
example :
    injectSnippet "<html><head><body>".data ['X'] =
      "<html><head>X<body>".data := by decide

example : injectSnippet "<body>".data ['X', 'Y'] = "XY<body>".data := by
  decide

example :
    normComps (splitOnSlash "../../etc/passwd".data) =
      [dotdot, dotdot, "etc".data, "passwd".data] := by decide

example : normComps (splitOnSlash "a/./b/../c".data) =
    ["a".data, "c".data] := by decide
